import Mathlib

set_option maxHeartbeats 1000000

/-!
Verification of the core of gmail-attachments-downloader: the filename
deduplicator and zip builder from src/zip.ts, and the retry wrapper from
the gmail module. Pure functions are embedded directly; the retry loop is
embedded with an explicit trace of operation invocations and backoff
suspensions so that call counts and delays are observable.
-/

/-- One file destined for the archive: the FileEntry interface of
src/zip.ts, with filename a string and data a Buffer. Buffer bytes are
modelled as a list of naturals. -/
structure FileEntry where
  filename : String
  data : List Nat
deriving DecidableEq, Repr

/-- Index of the last occurrence of a dot in a character list, or none
when no dot occurs: the behaviour of the JavaScript expression
filename.lastIndexOf(".") in deduplicateFilenames, with -1 rendered
as none. -/
def lastDotAux : List Char → Option Nat
  | [] => none
  | c :: cs =>
    match lastDotAux cs with
    | some i => some (i + 1)
    | none => if c = '.' then some 0 else none

/-- The renamed filename produced inside deduplicateFilenames for a
duplicate with a given positive occurrence count: split at the last dot
when its index is positive, otherwise append the counter to the whole
name. -/
def renameWith (filename : String) (count : Nat) : String :=
  match lastDotAux filename.toList with
  | some i =>
    if 0 < i then
      String.mk (filename.toList.take i) ++ "_" ++ toString count ++
        String.mk (filename.toList.drop i)
    else filename ++ "_" ++ toString count
  | none => filename ++ "_" ++ toString count

/-- The loop of deduplicateFilenames from src/zip.ts: the seenNames map is
the function argument, initially constantly zero; each entry is emitted
with its final name and the counter for its original name is bumped. -/
def dedupGo (seen : String → Nat) : List FileEntry → List FileEntry
  | [] => []
  | file :: files =>
    let count := seen file.filename
    let finalName :=
      if 0 < count then renameWith file.filename count else file.filename
    ⟨finalName, file.data⟩ ::
      dedupGo (fun n => if n = file.filename then count + 1 else seen n) files

/-- deduplicateFilenames from src/zip.ts: handles duplicate filenames by
appending a counter, starting from an empty seenNames map. -/
def deduplicateFilenames (files : List FileEntry) : List FileEntry :=
  dedupGo (fun _ => 0) files

/-- Number of entries in a list whose filename equals the given name. -/
def countName (n : String) : List FileEntry → Nat
  | [] => 0
  | f :: fs => (if f.filename = n then 1 else 0) + countName n fs

/-- A JavaScript error value as observed by withRetry: an optional numeric
status code and a message. Errors thrown fresh by withRetry itself carry
no code. -/
structure JsError where
  code : Option Int
  message : String
deriving DecidableEq, Repr

/-- Retryability test of withRetry: statusCode === 429 or (statusCode and
statusCode >= 500), where a missing code and the number 0 are falsy. -/
def isRetryable : Option Int → Bool
  | some c => c == 429 || (!(c == 0) && decide (500 ≤ c))
  | none => false

/-- Rendering of the optional last error message in the exhaustion
message: a missing value interpolates as the string undefined. -/
def optMessage : Option JsError → String
  | some e => e.message
  | none => "undefined"

/-- Observable outcome of a withRetry run: the returned or thrown result,
the number of times the operation was invoked, and the backoff
suspensions in milliseconds, in order. -/
structure RetryResult (T : Type) where
  result : Except JsError T
  calls : Nat
  sleeps : List Nat
deriving Repr

/-- The attempt loop of withRetry from the gmail module. The operation is
indexed by the attempt number; remaining counts the loop iterations still
allowed, so the current attempt index is carried separately. A 404 or 400
code throws a fresh contextual error, a retryable code sleeps
2 pow attempt times 1000 milliseconds and continues, any other failure
rethrows the original error; an exhausted loop throws the failed-after
message built from maxRetries and the last stored error. -/
def retryLoop {T : Type} (op : Nat → Except JsError T) (context : String)
    (maxRetries : Int) :
    Nat → Nat → Option JsError → Nat → List Nat → RetryResult T
  | 0, _, lastError, calls, sleeps =>
    ⟨Except.error ⟨none, context ++ ": Failed after " ++ toString maxRetries ++
        " attempts - " ++ optMessage lastError⟩, calls, sleeps⟩
  | remaining + 1, attempt, _, calls, sleeps =>
    match op attempt with
    | Except.ok v => ⟨Except.ok v, calls + 1, sleeps⟩
    | Except.error e =>
      if e.code = some 404 then
        ⟨Except.error ⟨none,
            context ++ ": Resource not found (may have been deleted)"⟩,
          calls + 1, sleeps⟩
      else if e.code = some 400 then
        ⟨Except.error ⟨none,
            context ++ ": Invalid request - " ++ e.message⟩,
          calls + 1, sleeps⟩
      else if isRetryable e.code then
        retryLoop op context maxRetries remaining (attempt + 1) (some e)
          (calls + 1) (sleeps ++ [2 ^ attempt * 1000])
      else
        ⟨Except.error e, calls + 1, sleeps⟩

/-- withRetry from the gmail module: run the attempt loop from attempt 0
with no last error recorded. maxRetries is an integer as in JavaScript;
a non-positive value admits zero loop iterations. In the source it
defaults to 3; the default is always passed explicitly here. -/
def withRetry {T : Type} (op : Nat → Except JsError T) (context : String)
    (maxRetries : Int) : RetryResult T :=
  retryLoop op context maxRetries maxRetries.toNat 0 none 0 []

/-- Modelled from the spec: the in-memory archive container of the archive
builder, which JSZip provides to createZip and which is absent from the
repository. The container maps each in-archive path to the stored bytes;
adding a record for an existing path replaces it, and extraction is
lookup by path. -/
def ZipFiles : Type := String → Option (List Nat)

/-- Modelled from the spec: adding one file record to the container under
its name, replacing any record already stored under that name. -/
def zipAdd (z : ZipFiles) (name : String) (data : List Nat) : ZipFiles :=
  fun n => if n = name then some data else z n

/-- Modelled from the spec: the empty archive container holding no
records. -/
def emptyZip : ZipFiles := fun _ => none

/-- createZip from src/zip.ts: run deduplicateFilenames over the input
first, then add each resulting entry to the container under its
deduplicated name with its payload. -/
def createZip (files : List FileEntry) : ZipFiles :=
  (deduplicateFilenames files).foldl
    (fun z f => zipAdd z f.filename f.data) emptyZip

/-- Position of the last dot of a name, stated independently for
comparison with the implementation: when a dot occurs, its last position
is the length minus one minus the position of the first dot of the
reversed list. -/
def lastDotIndexSpec (cs : List Char) : Option Nat :=
  if '.' ∈ cs then some (cs.length - 1 - List.indexOf '.' cs.reverse)
  else none

/-- The renaming rule in the words of the specification: split the name at
its last dot into stem and ext, the ext carrying the leading dot, and emit
stem, an underscore, the counter, then ext; a name with no dot, or whose
only dot is at index 0, is suffixed whole. -/
def renameSpecClaim (n : String) (count : Nat) : String :=
  match lastDotIndexSpec n.toList with
  | some i =>
    if i = 0 then n ++ "_" ++ toString count
    else
      String.mk (n.toList.take i) ++ "_" ++ toString count ++
        String.mk (n.toList.drop i)
  | none => n ++ "_" ++ toString count

example : (deduplicateFilenames
    [⟨"file.txt", [0]⟩, ⟨"file.txt", [1]⟩]).map FileEntry.filename =
    ["file.txt", "file_1.txt"] := by decide

example : (deduplicateFilenames
    [⟨"archive.tar.gz", [0]⟩, ⟨"archive.tar.gz", [1]⟩]).map FileEntry.filename =
    ["archive.tar.gz", "archive.tar_1.gz"] := by decide

example : (deduplicateFilenames
    [⟨".gitignore", [0]⟩, ⟨".gitignore", [1]⟩]).map FileEntry.filename =
    [".gitignore", ".gitignore_1"] := by decide

example : (deduplicateFilenames
    [⟨"file.txt", [0]⟩, ⟨"file.txt", [1]⟩, ⟨"file_1.txt", [2]⟩]).map
      FileEntry.filename = ["file.txt", "file_1.txt", "file_1.txt"] := by
  decide

example :
    withRetry (fun _ => (Except.error ⟨some 429, "rate"⟩ : Except JsError Nat))
      "ctx" 1 =
    ⟨Except.error ⟨none, "ctx: Failed after 1 attempts - rate"⟩, 1, [1000]⟩ := rfl

example :
    withRetry (fun _ => (Except.error ⟨some 429, "rate"⟩ : Except JsError Nat))
      "ctx" 3 =
    ⟨Except.error ⟨none, "ctx: Failed after 3 attempts - rate"⟩, 3,
      [1000, 2000, 4000]⟩ := rfl

example :
    withRetry (fun _ => (Except.error ⟨some 429, "rate"⟩ : Except JsError Nat))
      "ctx" (-1) =
    ⟨Except.error ⟨none, "ctx: Failed after -1 attempts - undefined"⟩, 0, []⟩ := rfl

example :
    withRetry (fun _ => (Except.error ⟨some 404, "gone"⟩ : Except JsError Nat))
      "ctx" 3 =
    ⟨Except.error ⟨none, "ctx: Resource not found (may have been deleted)"⟩,
      1, []⟩ := rfl

example :
    withRetry
      (fun n => if n = 0 then Except.error ⟨some 500, "server"⟩ else Except.ok 7)
      "ctx" 3 =
    ⟨Except.ok 7, 2, [1000]⟩ := rfl

example :
    createZip [⟨"file.txt", [0]⟩, ⟨"file.txt", [1]⟩, ⟨"file_1.txt", [2]⟩]
      "file_1.txt" = some [2] := by
  decide

example : renameSpecClaim "archive.tar.gz" 1 = "archive.tar_1.gz" := by decide

theorem dedupGo_length (files : List FileEntry) :
    ∀ seen, (dedupGo seen files).length = files.length := by
  induction files with
  | nil => intro seen; rfl
  | cons f fs ih => intro seen; simp [dedupGo, ih]

theorem lastDot_none_iff (cs : List Char) :
    lastDotAux cs = none ↔ '.' ∉ cs := by
  induction cs with
  | nil => simp [lastDotAux]
  | cons c cs ih =>
    cases h : lastDotAux cs with
    | some i =>
      have hmem : '.' ∈ cs := by
        by_contra hn
        have := ih.mpr hn
        rw [h] at this
        exact Option.noConfusion this
      simp [lastDotAux, h, hmem]
    | none =>
      have hnm : '.' ∉ cs := ih.mp h
      by_cases hc : c = '.'
      · simp [lastDotAux, h, hc]
      · simp [lastDotAux, h, hc, hnm, Ne.symm hc]

theorem lastDotAux_eq_spec (cs : List Char) :
    lastDotAux cs = lastDotIndexSpec cs := by
  induction cs with
  | nil => simp [lastDotAux, lastDotIndexSpec]
  | cons c cs ih =>
    cases h : lastDotAux cs with
    | some i =>
      have hmem : '.' ∈ cs := by
        by_contra hn
        have := (lastDot_none_iff cs).mpr hn
        rw [h] at this
        exact Option.noConfusion this
      have hrev : '.' ∈ cs.reverse := by simpa using hmem
      have hidx : List.indexOf '.' cs.reverse < cs.length := by
        have := List.indexOf_lt_length.mpr hrev
        simpa using this
      have hi : i = cs.length - 1 - List.indexOf '.' cs.reverse := by
        have hs := ih
        rw [h] at hs
        rw [lastDotIndexSpec, if_pos hmem] at hs
        exact Option.some.inj hs.symm |>.symm
      have hmem2 : '.' ∈ c :: cs := List.mem_cons_of_mem c hmem
      have hL : lastDotAux (c :: cs) = some (i + 1) := by
        simp [lastDotAux, h]
      rw [hL, lastDotIndexSpec, if_pos hmem2, List.reverse_cons,
        List.indexOf_append_of_mem hrev]
      simp only [List.length_cons, Option.some.injEq]
      omega
    | none =>
      have hnm : '.' ∉ cs := (lastDot_none_iff cs).mp h
      by_cases hc : c = '.'
      · subst hc
        have hrev : '.' ∉ cs.reverse := by simpa using hnm
        have hmem2 : '.' ∈ '.' :: cs := List.mem_cons_self '.' cs
        have hL : lastDotAux ('.' :: cs) = some 0 := by
          simp [lastDotAux, h]
        rw [hL, lastDotIndexSpec, if_pos hmem2, List.reverse_cons,
          List.indexOf_append_of_not_mem hrev]
        simp only [List.indexOf_cons_self, List.length_reverse,
          List.length_cons, Option.some.injEq]
        omega
      · have hnm2 : '.' ∉ c :: cs := by
          simp [List.mem_cons, Ne.symm hc, hnm]
        have hL : lastDotAux (c :: cs) = none := by
          simp [lastDotAux, h, hc]
        rw [hL, lastDotIndexSpec, if_neg hnm2]

theorem renameWith_eq_spec (n : String) (count : Nat) :
    renameWith n count = renameSpecClaim n count := by
  rw [renameWith, renameSpecClaim, lastDotAux_eq_spec]
  cases lastDotIndexSpec n.toList with
  | none => rfl
  | some i =>
    by_cases hi : i = 0
    · simp [hi]
    · simp [hi, Nat.pos_of_ne_zero hi]

theorem dedupGo_getElem (files : List FileEntry) :
    ∀ (seen : String → Nat) (i : Nat),
      (dedupGo seen files)[i]? = (files[i]?).map (fun f =>
        ⟨if 0 < seen f.filename + countName f.filename (files.take i) then
            renameWith f.filename
              (seen f.filename + countName f.filename (files.take i))
          else f.filename, f.data⟩) := by
  induction files with
  | nil => intro seen i; simp [dedupGo]
  | cons f fs ih =>
    intro seen i
    cases i with
    | zero => simp [dedupGo, countName]
    | succ i =>
      simp only [dedupGo, List.getElem?_cons_succ, List.take_succ_cons]
      rw [ih]
      cases h : fs[i]? with
      | none => rfl
      | some g =>
        simp only [Option.map_some']
        have hAB :
            (if g.filename = f.filename then seen f.filename + 1
              else seen g.filename) + countName g.filename (fs.take i) =
            seen g.filename + countName g.filename (f :: fs.take i) := by
          by_cases hg : g.filename = f.filename
          · rw [hg]
            simp [countName]
            omega
          · simp only [countName, if_neg hg, if_neg (Ne.symm hg)]
            omega
        rw [hAB]

theorem dedupGo_of_unseen (files : List FileEntry) :
    ∀ seen : String → Nat, (∀ f ∈ files, seen f.filename = 0) →
      (files.map FileEntry.filename).Nodup → dedupGo seen files = files := by
  induction files with
  | nil => intro seen _ _; rfl
  | cons f fs ih =>
    intro seen h0 hnd
    have hf0 : seen f.filename = 0 := h0 f (List.mem_cons_self f fs)
    have hnd2 := hnd
    rw [List.map_cons, List.nodup_cons] at hnd2
    simp only [dedupGo, hf0]
    rw [if_neg (lt_irrefl 0)]
    rw [show (⟨f.filename, f.data⟩ : FileEntry) = f from rfl, ih]
    · intro g hg
      have hne : g.filename ≠ f.filename := by
        intro hgf
        exact hnd2.1 (hgf ▸ List.mem_map_of_mem FileEntry.filename hg)
      simp [hne, h0 g (List.mem_cons_of_mem f hg)]
    · exact hnd2.2

/-- C1: refuted on the code. At the input consisting of file.txt twice
followed by an original entry named file_1.txt, deduplicateFilenames
keeps length and order but emits the name file_1.txt twice, so the output
names are not pairwise distinct, contrary to the uniqueness promised by
the specification and by the doc comment of deduplicateFilenames
itself. -/
theorem c1_collision_eval :
    (deduplicateFilenames
        [⟨"file.txt", [0]⟩, ⟨"file.txt", [1]⟩, ⟨"file_1.txt", [2]⟩]).map
      FileEntry.filename = ["file.txt", "file_1.txt", "file_1.txt"] ∧
    ¬ (["file.txt", "file_1.txt", "file_1.txt"] : List String).Nodup := by
  exact ⟨by decide, by decide⟩

/-- C4: confirmed. Whenever the entry at index i has an original name that
already occurred a positive number of times among the earlier entries, the
deduplicated output at index i keeps the payload and renames exactly as
the specification describes: split at the last dot into stem and ext with
ext carrying the dot and emit stem, underscore, counter, ext; with no dot,
or with the only dot at index 0, the whole name is suffixed. -/
theorem c4_duplicate_rename (files : List FileEntry) (i : Nat)
    (f : FileEntry) (hf : files[i]? = some f)
    (hc : 0 < countName f.filename (files.take i)) :
    (deduplicateFilenames files)[i]? =
      some ⟨renameSpecClaim f.filename (countName f.filename (files.take i)),
        f.data⟩ := by
  have h := dedupGo_getElem files (fun _ => 0) i
  rw [deduplicateFilenames, h, hf]
  simp only [Option.map_some', Nat.zero_add]
  rw [if_pos hc, renameWith_eq_spec]

/-- Witness for C4 at the duplicated archive.tar.gz input: the second
occurrence is renamed by the last-dot split to archive.tar_1.gz. -/
theorem c4_witness :
    ([⟨"archive.tar.gz", [0]⟩, ⟨"archive.tar.gz", [1]⟩] :
        List FileEntry)[1]? = some ⟨"archive.tar.gz", [1]⟩ ∧
    0 < countName "archive.tar.gz"
        (([⟨"archive.tar.gz", [0]⟩, ⟨"archive.tar.gz", [1]⟩] :
            List FileEntry).take 1) ∧
    (deduplicateFilenames
        [⟨"archive.tar.gz", [0]⟩, ⟨"archive.tar.gz", [1]⟩])[1]? =
      some ⟨renameSpecClaim "archive.tar.gz" 1, [1]⟩ ∧
    renameSpecClaim "archive.tar.gz" 1 = "archive.tar_1.gz" := by
  refine ⟨by decide, by decide, ?_, by decide⟩
  exact c4_duplicate_rename
    [⟨"archive.tar.gz", [0]⟩, ⟨"archive.tar.gz", [1]⟩] 1
    ⟨"archive.tar.gz", [1]⟩ (by decide) (by decide)

/-- C10: confirmed. deduplicateFilenames compares names by exact string
equality, so when all input names are pairwise distinct as raw strings
every entry passes through unchanged. -/
theorem c10_exact_names (files : List FileEntry)
    (h : (files.map FileEntry.filename).Nodup) :
    deduplicateFilenames files = files :=
  dedupGo_of_unseen files (fun _ => 0) (fun _ _ => rfl) h

/-- Witness for C10: names differing only by letter case are distinct raw
strings and are left unchanged. -/
theorem c10_witness :
    (([⟨"File.txt", [0]⟩, ⟨"file.txt", [1]⟩] : List FileEntry).map
        FileEntry.filename).Nodup ∧
    deduplicateFilenames [⟨"File.txt", [0]⟩, ⟨"file.txt", [1]⟩] =
      [⟨"File.txt", [0]⟩, ⟨"file.txt", [1]⟩] := by
  refine ⟨by decide, ?_⟩
  exact c10_exact_names [⟨"File.txt", [0]⟩, ⟨"file.txt", [1]⟩] (by decide)

theorem isRetryable_of_claim {c : Option Int}
    (h : c = some 429 ∨ ∃ d, c = some d ∧ 500 ≤ d) : isRetryable c = true := by
  rcases h with h | ⟨d, hd, hge⟩
  · rw [h]; rfl
  · rw [hd]
    simp only [isRetryable, Bool.or_eq_true, beq_iff_eq, Bool.and_eq_true,
      Bool.not_eq_eq_eq_not, Bool.not_true, beq_eq_false_iff_ne, ne_eq,
      decide_eq_true_eq]
    omega

theorem isRetryable_ne_fatal {c : Option Int} (h : isRetryable c = true) :
    c ≠ some 404 ∧ c ≠ some 400 := by
  cases c with
  | none => simp [isRetryable] at h
  | some d =>
    simp only [isRetryable, Bool.or_eq_true, beq_iff_eq, Bool.and_eq_true,
      Bool.not_eq_eq_eq_not, Bool.not_true, beq_eq_false_iff_ne, ne_eq,
      decide_eq_true_eq] at h
    refine ⟨?_, ?_⟩ <;> intro hco <;> rw [Option.some.injEq] at hco <;>
      omega

theorem retryLoop_retry_step {T : Type} {op : Nat → Except JsError T}
    {ctx : String} {maxR : Int} {remaining attempt calls : Nat}
    {lastE : Option JsError} {sleeps : List Nat} {e : JsError}
    (hop : op attempt = Except.error e) (hr : isRetryable e.code = true) :
    retryLoop op ctx maxR (remaining + 1) attempt lastE calls sleeps =
      retryLoop op ctx maxR remaining (attempt + 1) (some e) (calls + 1)
        (sleeps ++ [2 ^ attempt * 1000]) := by
  have hf := isRetryable_ne_fatal hr
  simp [retryLoop, hop, hf.1, hf.2, hr]

/-- C3: confirmed. When every attempt fails with status code 429 and three
attempts are allowed, withRetry invokes the operation exactly three times,
suspends exactly three times for 1000, 2000 and 4000 milliseconds in that
order, and then fails with the failed-after message built from the context,
the attempt bound and the last error message. -/
theorem c3_allfail_429 {T : Type} (op : Nat → Except JsError T)
    (errs : Nat → JsError) (ctx : String)
    (hop : ∀ n, op n = Except.error (errs n))
    (hcode : ∀ n, (errs n).code = some 429) :
    withRetry op ctx 3 =
      ⟨Except.error ⟨none, ctx ++ ": Failed after " ++ toString (3 : Int) ++
          " attempts - " ++ (errs 2).message⟩,
        3, [1000, 2000, 4000]⟩ := by
  have hr : ∀ n, isRetryable (errs n).code = true := fun n =>
    isRetryable_of_claim (Or.inl (hcode n))
  rw [withRetry, show ((3 : Int)).toNat = 3 from rfl,
    retryLoop_retry_step (hop 0) (hr 0),
    retryLoop_retry_step (hop 1) (hr 1),
    retryLoop_retry_step (hop 2) (hr 2)]
  simp [retryLoop, optMessage]

/-- Witness for C3 at a concrete always-429 operation. -/
theorem c3_witness :
    withRetry (fun _ => (Except.error ⟨some 429, "boom"⟩ :
        Except JsError Nat)) "ctx" 3 =
      ⟨Except.error ⟨none, "ctx: Failed after 3 attempts - boom"⟩, 3,
        [1000, 2000, 4000]⟩ := by
  have h := c3_allfail_429
    (fun _ => (Except.error ⟨some 429, "boom"⟩ : Except JsError Nat))
    (fun _ => ⟨some 429, "boom"⟩) "ctx" (fun _ => rfl) (fun _ => rfl)
  simpa using h

/-- C2: refuted as stated. A single allowed attempt that fails retryably
does incur one backoff suspension of 1000 milliseconds before the
exhaustion failure, so a delay is incurred. -/
theorem c2_counterexample :
    (withRetry (fun _ => (Except.error ⟨some 429, "rate limited"⟩ :
        Except JsError Nat)) "ctx" 1).sleeps = [1000] ∧
    ([1000] : List Nat) ≠ [] := ⟨rfl, by decide⟩

/-- C2 amended: with one allowed attempt and a retryable failure, the
operation is invoked exactly once and withRetry fails with the
failed-after message, after one backoff suspension of 1000 milliseconds
(2 pow 0 times 1000). -/
theorem c2_single_attempt {T : Type} (op : Nat → Except JsError T)
    (ctx : String) (e : JsError) (h0 : op 0 = Except.error e)
    (hr : e.code = some 429 ∨ ∃ c, e.code = some c ∧ 500 ≤ c) :
    withRetry op ctx 1 =
      ⟨Except.error ⟨none, ctx ++ ": Failed after " ++ toString (1 : Int) ++
          " attempts - " ++ e.message⟩, 1, [1000]⟩ := by
  have hrb := isRetryable_of_claim hr
  rw [withRetry, show ((1 : Int)).toNat = 1 from rfl,
    retryLoop_retry_step h0 hrb]
  simp [retryLoop, optMessage]

/-- Witness for the amended C2 at a concrete always-429 operation. -/
theorem c2_witness :
    withRetry (fun _ => (Except.error ⟨some 429, "rate limited"⟩ :
        Except JsError Nat)) "ctx" 1 =
      ⟨Except.error ⟨none, "ctx: Failed after 1 attempts - rate limited"⟩,
        1, [1000]⟩ := by
  have h := c2_single_attempt
    (fun _ => (Except.error ⟨some 429, "rate limited"⟩ : Except JsError Nat))
    "ctx" ⟨some 429, "rate limited"⟩ rfl (Or.inl rfl)
  simpa using h

/-- C5: confirmed. A first failure with code 404 makes withRetry stop
after exactly one invocation with the resource-not-found message, and a
first failure with code 400 makes it stop after exactly one invocation
with the invalid-request message carrying the original message; neither
incurs any backoff suspension. -/
theorem c5_fatal {T : Type} (op : Nat → Except JsError T) (ctx : String)
    (maxRetries : Int) (e : JsError) (hm : 1 ≤ maxRetries)
    (h0 : op 0 = Except.error e) :
    (e.code = some 404 →
      withRetry op ctx maxRetries =
        ⟨Except.error ⟨none,
            ctx ++ ": Resource not found (may have been deleted)"⟩, 1, []⟩) ∧
    (e.code = some 400 →
      withRetry op ctx maxRetries =
        ⟨Except.error ⟨none,
            ctx ++ ": Invalid request - " ++ e.message⟩, 1, []⟩) := by
  obtain ⟨k, hk⟩ : ∃ k, maxRetries.toNat = k + 1 :=
    ⟨maxRetries.toNat - 1, by omega⟩
  constructor
  · intro hc
    rw [withRetry, hk]
    simp [retryLoop, h0, hc]
  · intro hc
    rw [withRetry, hk]
    simp [retryLoop, h0, hc]

/-- Witness for C5: one 404 operation and one 400 operation, each invoked
once with the corresponding message. -/
theorem c5_witness :
    withRetry (fun _ => (Except.error ⟨some 404, "gone"⟩ :
        Except JsError Nat)) "ctx" 3 =
      ⟨Except.error ⟨none, "ctx: Resource not found (may have been deleted)"⟩,
        1, []⟩ ∧
    withRetry (fun _ => (Except.error ⟨some 400, "bad query"⟩ :
        Except JsError Nat)) "ctx" 3 =
      ⟨Except.error ⟨none, "ctx: Invalid request - bad query"⟩, 1, []⟩ := by
  constructor
  · have h := (c5_fatal
      (fun _ => (Except.error ⟨some 404, "gone"⟩ : Except JsError Nat))
      "ctx" 3 ⟨some 404, "gone"⟩ (by norm_num) rfl).1 rfl
    simpa using h
  · have h := (c5_fatal
      (fun _ => (Except.error ⟨some 400, "bad query"⟩ : Except JsError Nat))
      "ctx" 3 ⟨some 400, "bad query"⟩ (by norm_num) rfl).2 rfl
    simpa using h

/-- C6: confirmed. A first failure whose code is absent, or present but
outside the recognized set 400, 404, 429 and below 500, makes withRetry
stop after exactly one invocation and rethrow the original error value
unchanged, with no suspension. -/
theorem c6_unclassified {T : Type} (op : Nat → Except JsError T)
    (ctx : String) (maxRetries : Int) (e : JsError) (hm : 1 ≤ maxRetries)
    (h0 : op 0 = Except.error e)
    (hc : e.code = none ∨
      ∃ c, e.code = some c ∧ c ≠ 400 ∧ c ≠ 404 ∧ c ≠ 429 ∧ c < 500) :
    withRetry op ctx maxRetries = ⟨Except.error e, 1, []⟩ := by
  obtain ⟨k, hk⟩ : ∃ k, maxRetries.toNat = k + 1 :=
    ⟨maxRetries.toNat - 1, by omega⟩
  have h404 : e.code ≠ some 404 := by
    rcases hc with h | ⟨c, hcc, h1, h2, h3, h4⟩
    · simp [h]
    · rw [hcc]
      intro hx
      exact h2 (Option.some.inj hx)
  have h400 : e.code ≠ some 400 := by
    rcases hc with h | ⟨c, hcc, h1, h2, h3, h4⟩
    · simp [h]
    · rw [hcc]
      intro hx
      exact h1 (Option.some.inj hx)
  have hretry : isRetryable e.code = false := by
    rcases hc with h | ⟨c, hcc, h1, h2, h3, h4⟩
    · rw [h]; rfl
    · rw [hcc]
      simp only [isRetryable, Bool.or_eq_false_iff, beq_eq_false_iff_ne,
        ne_eq, Bool.and_eq_false_iff, Bool.not_eq_eq_eq_not, Bool.not_false,
        beq_iff_eq, decide_eq_false_iff_not, not_le]
      omega
  rw [withRetry, hk]
  simp [retryLoop, h0, h404, h400, hretry]

/-- Witness for C6 at an operation failing with an error carrying no
status code: the original error value is surfaced unchanged. -/
theorem c6_witness :
    withRetry (fun _ => (Except.error ⟨none, "weird"⟩ :
        Except JsError Nat)) "ctx" 3 =
      ⟨Except.error ⟨none, "weird"⟩, 1, []⟩ :=
  c6_unclassified
    (fun _ => (Except.error ⟨none, "weird"⟩ : Except JsError Nat))
    "ctx" 3 ⟨none, "weird"⟩ (by norm_num) rfl (Or.inl rfl)

theorem retryLoop_reaches_ok {T : Type} (op : Nat → Except JsError T)
    (ctx : String) (maxR : Int) (v : T) (errs : Nat → JsError) :
    ∀ (k remaining attempt calls : Nat) (lastE : Option JsError)
      (sleeps : List Nat),
      k < remaining →
      (∀ i, i < k → op (attempt + i) = Except.error (errs (attempt + i))) →
      (∀ i, i < k → isRetryable (errs (attempt + i)).code = true) →
      op (attempt + k) = Except.ok v →
      (retryLoop op ctx maxR remaining attempt lastE calls sleeps).result =
          Except.ok v ∧
      (retryLoop op ctx maxR remaining attempt lastE calls sleeps).calls =
          calls + k + 1 := by
  intro k
  induction k with
  | zero =>
    intro remaining attempt calls lastE sleeps hlt hfail hretry hok
    obtain ⟨r, rfl⟩ : ∃ r, remaining = r + 1 := ⟨remaining - 1, by omega⟩
    rw [Nat.add_zero] at hok
    simp [retryLoop, hok]
  | succ k ih =>
    intro remaining attempt calls lastE sleeps hlt hfail hretry hok
    obtain ⟨r, rfl⟩ : ∃ r, remaining = r + 1 := ⟨remaining - 1, by omega⟩
    have h0 : op attempt = Except.error (errs attempt) := by
      have h := hfail 0 (Nat.succ_pos k)
      rwa [Nat.add_zero] at h
    have hr0 : isRetryable (errs attempt).code = true := by
      have h := hretry 0 (Nat.succ_pos k)
      rwa [Nat.add_zero] at h
    rw [retryLoop_retry_step h0 hr0]
    have h := ih r (attempt + 1) (calls + 1) (some (errs attempt))
      (sleeps ++ [2 ^ attempt * 1000]) (by omega)
      (fun i hi => by
        have hx := hfail (i + 1) (by omega)
        rwa [show attempt + (i + 1) = attempt + 1 + i by omega] at hx)
      (fun i hi => by
        have hx := hretry (i + 1) (by omega)
        rwa [show attempt + (i + 1) = attempt + 1 + i by omega] at hx)
      (by rwa [show attempt + (k + 1) = attempt + 1 + k by omega] at hok)
    exact ⟨h.1, by rw [h.2]; omega⟩

/-- C7: confirmed. An operation that fails retryably on each of the first
k attempts and succeeds on attempt k, with k below the attempt bound,
makes withRetry return the success value after exactly k plus one
invocations. -/
theorem c7_eventual_success {T : Type} (op : Nat → Except JsError T)
    (ctx : String) (maxRetries : Int) (k : Nat) (v : T)
    (errs : Nat → JsError) (hm : (k : Int) < maxRetries)
    (hfail : ∀ i, i < k → op i = Except.error (errs i))
    (hretry : ∀ i, i < k →
      (errs i).code = some 429 ∨ ∃ c, (errs i).code = some c ∧ 500 ≤ c)
    (hok : op k = Except.ok v) :
    (withRetry op ctx maxRetries).result = Except.ok v ∧
    (withRetry op ctx maxRetries).calls = k + 1 := by
  have h := retryLoop_reaches_ok op ctx maxRetries v errs k maxRetries.toNat
    0 0 none [] (by omega)
    (fun i hi => by simpa using hfail i hi)
    (fun i hi => isRetryable_of_claim (by simpa using hretry i hi))
    (by simpa using hok)
  rw [withRetry]
  exact ⟨h.1, by rw [h.2]; omega⟩

/-- Witness for C7: success on the second attempt after one 500 failure
returns the value after exactly two invocations. -/
theorem c7_witness :
    (withRetry
        (fun n => if n = 0 then
            (Except.error ⟨some 500, "server"⟩ : Except JsError Nat)
          else Except.ok 7) "ctx" 3).result = Except.ok 7 ∧
    (withRetry
        (fun n => if n = 0 then
            (Except.error ⟨some 500, "server"⟩ : Except JsError Nat)
          else Except.ok 7) "ctx" 3).calls = 2 := by
  have h := c7_eventual_success
    (fun n => if n = 0 then
        (Except.error ⟨some 500, "server"⟩ : Except JsError Nat)
      else Except.ok 7) "ctx" 3 1 7 (fun _ => ⟨some 500, "server"⟩)
    (by norm_num)
    (fun i hi => by
      have hz : i = 0 := by omega
      subst hz
      rfl)
    (fun i hi => Or.inr ⟨500, rfl, by norm_num⟩)
    rfl
  exact h

/-- C9: refuted as stated for negative bounds. At maxAttempts equal to
minus one the operation is never invoked, yet the failure message
interpolates the given bound, not zero: it reads failed after -1
attempts, not failed after 0 attempts. -/
theorem c9_counterexample :
    (withRetry (fun _ => (Except.error ⟨some 429, "x"⟩ :
        Except JsError Nat)) "ctx" (-1)).result =
      Except.error ⟨none, "ctx: Failed after -1 attempts - undefined"⟩ ∧
    (withRetry (fun _ => (Except.error ⟨some 429, "x"⟩ :
        Except JsError Nat)) "ctx" (-1)).calls = 0 ∧
    "ctx: Failed after -1 attempts - undefined" ≠
      "ctx: Failed after 0 attempts - undefined" := ⟨rfl, rfl, by decide⟩

/-- C9 amended: for any non-positive maxAttempts the operation is invoked
zero times, no suspension happens, and withRetry fails with the
failed-after message interpolating that same maxAttempts value and the
string undefined for the absent last error; at maxAttempts zero this is
exactly the failed-after-0-attempts message. -/
theorem c9_nonpositive {T : Type} (op : Nat → Except JsError T)
    (ctx : String) (maxRetries : Int) (hm : maxRetries ≤ 0) :
    withRetry op ctx maxRetries =
      ⟨Except.error ⟨none, ctx ++ ": Failed after " ++ toString maxRetries ++
          " attempts - " ++ "undefined"⟩, 0, []⟩ := by
  rw [withRetry, Int.toNat_of_nonpos hm]
  simp [retryLoop, optMessage]

/-- Witness for the amended C9 at maxAttempts zero. -/
theorem c9_witness :
    withRetry (fun _ => (Except.error ⟨some 429, "x"⟩ :
        Except JsError Nat)) "c" 0 =
      ⟨Except.error ⟨none, "c: Failed after 0 attempts - undefined"⟩,
        0, []⟩ := by
  have h := c9_nonpositive
    (fun _ => (Except.error ⟨some 429, "x"⟩ : Except JsError Nat)) "c" 0
    le_rfl
  simpa using h

theorem zipFold_unrelated (entries : List FileEntry) :
    ∀ (z : ZipFiles) (n : String),
      (∀ f ∈ entries, f.filename ≠ n) →
      (entries.foldl (fun z g => zipAdd z g.filename g.data) z) n = z n := by
  induction entries with
  | nil => intro z n _; rfl
  | cons f fs ih =>
    intro z n h
    rw [List.foldl_cons,
      ih (zipAdd z f.filename f.data) n
        (fun g hg => h g (List.mem_cons_of_mem f hg))]
    simp [zipAdd, Ne.symm (h f (List.mem_cons_self f fs))]

theorem zipFold_mem (entries : List FileEntry) :
    ∀ z : ZipFiles, (entries.map FileEntry.filename).Nodup →
      ∀ f ∈ entries,
        (entries.foldl (fun z g => zipAdd z g.filename g.data) z)
          f.filename = some f.data := by
  induction entries with
  | nil => intro z _ f hf; exact absurd hf (List.not_mem_nil f)
  | cons g gs ih =>
    intro z hnd f hf
    have hnd2 := hnd
    rw [List.map_cons, List.nodup_cons] at hnd2
    rw [List.foldl_cons]
    rcases List.mem_cons.mp hf with rfl | hfs
    · have hne : ∀ g2 ∈ gs, g2.filename ≠ f.filename := by
        intro g2 hg2 heq
        exact hnd2.1 (heq ▸ List.mem_map_of_mem FileEntry.filename hg2)
      rw [zipFold_unrelated gs (zipAdd z f.filename f.data) f.filename hne]
      simp [zipAdd]
    · exact ih (zipAdd z g.filename g.data) hnd2.2 f hfs

/-- C8: refuted as stated. createZip does run the deduplicator first, but
at the input consisting of file.txt twice followed by an original entry
named file_1.txt the deduplicated names collide, the later record
replaces the earlier one under the shared path, and extracting the second
entry under its deduplicated name file_1.txt yields the third entry's
bytes instead of its own. -/
theorem c8_counterexample :
    (deduplicateFilenames
        [⟨"file.txt", [10]⟩, ⟨"file.txt", [11]⟩, ⟨"file_1.txt", [12]⟩])[1]? =
      some ⟨"file_1.txt", [11]⟩ ∧
    createZip [⟨"file.txt", [10]⟩, ⟨"file.txt", [11]⟩, ⟨"file_1.txt", [12]⟩]
        "file_1.txt" = some [12] ∧
    some [12] ≠ some ([11] : List Nat) := by
  exact ⟨by decide, by decide, by decide⟩

/-- C8 amended: createZip runs the deduplicator over its input first, and
whenever the deduplicated names are pairwise distinct, which holds except
when an input name collides with a generated suffixed name, extracting any
added entry's deduplicated name from the produced container yields exactly
the payload bytes supplied, unmodified. -/
theorem c8_roundtrip (files : List FileEntry)
    (h : ((deduplicateFilenames files).map FileEntry.filename).Nodup) :
    ∀ f ∈ deduplicateFilenames files,
      createZip files f.filename = some f.data := by
  intro f hf
  rw [createZip]
  exact zipFold_mem (deduplicateFilenames files) emptyZip h f hf

/-- Witness for the amended C8: a duplicated a.txt pair deduplicates to
distinct names and each payload is extracted unmodified under its
deduplicated name. -/
theorem c8_witness :
    ((deduplicateFilenames [⟨"a.txt", [1]⟩, ⟨"a.txt", [2]⟩]).map
        FileEntry.filename).Nodup ∧
    (⟨"a_1.txt", [2]⟩ : FileEntry) ∈
      deduplicateFilenames [⟨"a.txt", [1]⟩, ⟨"a.txt", [2]⟩] ∧
    createZip [⟨"a.txt", [1]⟩, ⟨"a.txt", [2]⟩] "a_1.txt" = some [2] := by
  refine ⟨by decide, by decide, ?_⟩
  exact c8_roundtrip [⟨"a.txt", [1]⟩, ⟨"a.txt", [2]⟩] (by decide)
    ⟨"a_1.txt", [2]⟩ (by decide)
